import Mathlib

/-!
Verification of c64koala2ppm (src/c64koala2ppm.c): a converter from the
Commodore 64 KoalaPaint image format to binary Portable Pixmap (PPM, P6).

The C program is shallowly embedded below.  Bytes are modelled as natural
numbers in [0, 256); where the C code stores bytes in (signed) `char` and
operates on them after integer promotion, the embedding goes through the
signed value explicitly (`schar`), with `>>` on a negative int modelled as
floor division (arithmetic shift, as on all mainstream targets) and `&`
with a low-bit mask modelled as `emod` (two's complement low bits).
Floating point trigonometry is abstracted by quantifying over the values
of cos/sin; the remaining float arithmetic is modelled over ℚ.
-/

/-- Value of a byte (0..255) stored in a C `char` (signed, 8-bit) and then
promoted to `int`, as in `c = bitmap[cardy][cardx][y]`. -/
def schar (b : ℕ) : ℤ :=
  if b < 128 then (b : ℤ) else (b : ℤ) - 256

/-- Arithmetic shift right by `k`: what `>>` does to a (possibly negative)
`int` on the targets this program runs on; equals floor division. -/
def asr (s : ℤ) (k : ℕ) : ℤ :=
  Int.fdiv s (2 ^ k)

/-- The C expression `(video[cardy][cardx] >> 4) & 0x0f` where the operand
is a signed char holding byte `b`: `&` with mask 0x0f keeps the low 4 bits
of the two's complement representation, i.e. takes `emod 16`. -/
def hiNibbleS (b : ℕ) : ℕ :=
  ((asr (schar b) 4) % 16).toNat

/-- The C expression `video[cardy][cardx] & 0x0f` (and likewise
`color[cardy][cardx] & 0x0f`) on a signed char holding byte `b`. -/
def loNibbleS (b : ℕ) : ℕ :=
  ((schar b) % 16).toNat

/-- The C expression `(c >> b) & 03` extracting a two-bit pixel code from
bitmap byte `c` (stored in a signed char) at bit position `b`. -/
def pixCode (c : ℕ) (b : ℕ) : ℕ :=
  ((asr (schar c) b) % 4).toNat

/-- The decoded input of `main`: the `bitmap[25][40][8]`, `video[25][40]`
and `color[25][40]` arrays and the background byte `bg`, as byte values. -/
structure Image where
  bitmap : ℕ → ℕ → ℕ → ℕ
  video : ℕ → ℕ → ℕ
  color : ℕ → ℕ → ℕ
  bg : ℕ

/-- The read phase of `main`: the buffers are pre-filled with the sentinel
bytes (bitmap 0x1b, video 0x25, color 0x06, bg 0x00), then five `fread`
calls joined by `&&` read, in order, 2 + 8000 + 1000 + 1000 + 1 bytes.
A short `fread` stores the bytes it could obtain and returns 0, so the
later reads are skipped; hence a cell is overwritten exactly when the
input reaches its offset, and the warning (`ℕ` counts the number of
"koala file is too short" messages) fires exactly when fewer than 10003
bytes are available.  A C array `a[25][40][8]` is row-major, so
`bitmap[cy][cx][y]` sits at offset `8*(40*cy+cx)+y` of its `fread`. -/
def decode (input : List ℕ) : Image × ℕ :=
  let n := input.length
  ({ bitmap := fun cy cx y =>
       let i := 8 * (40 * cy + cx) + y
       if i < 8000 ∧ 2 + i < n then input.getD (2 + i) 0 else 0x1b
   , video := fun cy cx =>
       let j := 40 * cy + cx
       if j < 1000 ∧ 8002 + j < n then input.getD (8002 + j) 0 else 0x25
   , color := fun cy cx =>
       let j := 40 * cy + cx
       if j < 1000 ∧ 9002 + j < n then input.getD (9002 + j) 0 else 0x06
   , bg := if 10003 ≤ n then input.getD 10002 0 else 0x00 },
   if n < 10003 then 1 else 0)

/-- The local 4-entry color table of a card, as palette indices:
`colors[0] = c64colors[(unsigned char)bg & 0x0f]`,
`colors[1] = c64colors[(video[cardy][cardx]>>4) & 0x0f]`,
`colors[2] = c64colors[(video[cardy][cardx]) & 0x0f]`,
`colors[3] = c64colors[(color[cardy][cardx]) & 0x0f]`. -/
def localIndex (img : Image) (cy cx : ℕ) : ℕ → ℕ
  | 0 => img.bg % 16
  | 1 => hiNibbleS (img.video cy cx)
  | 2 => loNibbleS (img.video cy cx)
  | _ => loNibbleS (img.color cy cx)

/-- Palette index of the output pixel at row `y`, column `x`.  The C loop
assigns `outimage[8*cardy+y][4*cardx+(6-b)/2] = colors[(c>>b) & 03]` for
`cardy < 25`, `cardx < 40`, `y < 8`, `b ∈ {0,2,4,6}`; every output cell is
assigned exactly once, and solving `Y = 8*cardy+y`, `X = 4*cardx+(6-b)/2`
for the loop variables gives `cardy = Y/8`, `y = Y%8`, `cardx = X/4`,
`b = 6-2*(X%4)`. -/
def rasterIdx (img : Image) (y x : ℕ) : ℕ :=
  let cardy := y / 8
  let cardx := x / 4
  let c := img.bitmap cardy cardx (y % 8)
  let b := 6 - 2 * (x % 4)
  localIndex img cardy cardx (pixCode c b)

/-- The hardware palette entries: `struct c64_color { int angle, luma,
saturation; }`. -/
structure C64Color where
  angle : ℕ
  luma : ℕ
  saturation : ℕ

/-- The 16 fixed entries of `c64_colors`. -/
def c64_colors : List C64Color :=
  [⟨0, 0, 0⟩, ⟨0, 32, 0⟩, ⟨5, 10, 1⟩, ⟨13, 20, 1⟩,
   ⟨2, 12, 1⟩, ⟨10, 16, 1⟩, ⟨0, 8, 1⟩, ⟨8, 24, 1⟩,
   ⟨6, 12, 1⟩, ⟨7, 8, 1⟩, ⟨5, 16, 1⟩, ⟨0, 10, 0⟩,
   ⟨0, 15, 0⟩, ⟨10, 24, 1⟩, ⟨0, 15, 1⟩, ⟨0, 20, 0⟩]

/-- `struct yuv_color { float y, u, v; }`, modelled over ℚ. -/
structure YuvColor where
  y : ℚ
  u : ℚ
  v : ℚ

/-- `struct rgb_color { int r, g, b; }`. -/
structure RgbColor where
  r : ℤ
  g : ℤ
  b : ℤ
deriving DecidableEq

/-- `#define USCALE 0.1331`. -/
def USCALE : ℚ := 0.1331

/-- `#define VSCALE 0.1331`. -/
def VSCALE : ℚ := 0.1331

/-- `c64_to_yuv`: `yuv->y = c64->luma / 32.;`
`yuv->u = c64->saturation * saturation * uscale * cos(c64->angle*M_PI/8);`
`yuv->v = c64->saturation * saturation * vscale * sin(c64->angle*M_PI/8);`
The values of `cos(angle*π/8)` and `sin(angle*π/8)` are passed in as the
parameters `cosv` and `sinv`; `sat` is the global `saturation`. -/
def c64_to_yuv (c : C64Color) (sat uscale vscale cosv sinv : ℚ) : YuvColor :=
  { y := (c.luma : ℚ) / 32
  , u := (c.saturation : ℚ) * sat * uscale * cosv
  , v := (c.saturation : ℚ) * sat * vscale * sinv }

/-- The `BOUND` macro: clamp to [0, 1]. -/
def BOUND (x : ℚ) : ℚ :=
  if x < 0 then 0 else if 1 < x then 1 else x

/-- Conversion of a nonnegative-or-negative rational to `int` as C does
when assigning a floating value to an `int`: truncation toward zero. -/
def ratTrunc (q : ℚ) : ℤ :=
  if q < 0 then ⌈q⌉ else ⌊q⌋

/-- `yuv_to_rgb`: the fixed linear YUV→RGB transform, clamping with
`BOUND`, then `rgb->r = 255*r + 0.5` (float assigned to `int`). -/
def yuv_to_rgb (yuv : YuvColor) : RgbColor :=
  let r := yuv.y + 1.13983 * yuv.v
  let g := yuv.y + (-0.39465) * yuv.u + (-0.58060) * yuv.v
  let b := yuv.y + 2.03211 * yuv.u
  { r := ratTrunc (255 * BOUND r + 0.5)
  , g := ratTrunc (255 * BOUND g + 0.5)
  , b := ratTrunc (255 * BOUND b + 0.5) }

/-- `c64_to_rgb` composed as in the source. -/
def c64_to_rgb (c : C64Color) (sat cosv sinv : ℚ) : RgbColor :=
  yuv_to_rgb (c64_to_yuv c sat USCALE VSCALE cosv sinv)

/-- `init_colors`: the resolved 16-entry palette `c64colors`, indexed by a
hardware color index.  `trig a` supplies the pair
`(cos(a*π/8), sin(a*π/8))`. -/
def init_colors (sat : ℚ) (trig : ℕ → ℚ × ℚ) : ℕ → RgbColor :=
  fun i =>
    let c := c64_colors.getD i ⟨0, 0, 0⟩
    c64_to_rgb c sat (trig c.angle).1 (trig c.angle).2

/-- Output pixel at row `y`, column `x`, for a palette `pal`. -/
def raster (pal : ℕ → RgbColor) (img : Image) (y x : ℕ) : RgbColor :=
  pal (rasterIdx img y x)

/-- The bytes `printf("%c%c%c", ...)` emits for one pixel: each `int`
component is converted to `unsigned char`, i.e. reduced mod 256. -/
def pixelBytes (p : RgbColor) : List ℕ :=
  [(p.r % 256).toNat, (p.g % 256).toNat, (p.b % 256).toNat]

/-- The bytes of `printf("P6\n%d %d\n%d\n", 160, 200, 255)`:
the ASCII codes of `P6\n160 200\n255\n`. -/
def headerBytes : List ℕ :=
  [80, 54, 10, 49, 54, 48, 32, 50, 48, 48, 10, 50, 53, 53, 10]

/-- The full stream written to stdout: the header, then the pixels row by
row from top to bottom, left to right inside a row, three bytes each. -/
def ppmBytes (pal : ℕ → RgbColor) (img : Image) : List ℕ :=
  headerBytes ++
    (List.range 200).flatMap (fun y =>
      (List.range 160).flatMap (fun x => pixelBytes (raster pal img y x)))

/-- Observable result of one run of the program. -/
structure ProgResult where
  exitCode : ℤ
  out : List ℕ
  warnings : ℕ
  argErr : Bool

/-- The program on the path that reads standard input: `getargs` rejects a
negative saturation with exit status 1 before anything is read or written;
otherwise `main` decodes, reconstructs and writes the pixmap and returns
0.  `warnings` counts the "koala file is too short" messages on stderr and
`argErr` records the "saturation must be >= 0" message. -/
def c64koala2ppm (sat : ℚ) (trig : ℕ → ℚ × ℚ) (input : List ℕ) : ProgResult :=
  if sat < 0 then
    { exitCode := 1, out := [], warnings := 0, argErr := true }
  else
    let d := decode input
    { exitCode := 0
    , out := ppmBytes (init_colors sat trig) d.1
    , warnings := d.2
    , argErr := false }

/-! ### Helper lemmas -/

theorem loNibbleS_mod (b : ℕ) : loNibbleS b = b % 16 := by
  unfold loNibbleS schar
  split <;> omega

theorem hiNibbleS_mod (b : ℕ) : hiNibbleS b = b / 16 % 16 := by
  unfold hiNibbleS asr schar
  rw [show ((2 : ℤ) ^ 4) = 16 by norm_num]
  split <;> rw [Int.fdiv_eq_ediv _ (by norm_num)] <;> omega

theorem pixCode_shift (c b : ℕ) (hb : b ≤ 6) : pixCode c b = c / 2 ^ b % 4 := by
  unfold pixCode asr schar
  rw [Int.fdiv_eq_ediv _ (by positivity)]
  interval_cases b <;> split <;> omega

theorem localIndex_lt (img : Image) (cy cx k : ℕ) : localIndex img cy cx k < 16 := by
  have h1 : ∀ b, loNibbleS b < 16 := by
    intro b; rw [loNibbleS_mod]; omega
  have h2 : ∀ b, hiNibbleS b < 16 := by
    intro b; rw [hiNibbleS_mod]; omega
  match k with
  | 0 => simpa [localIndex] using Nat.mod_lt img.bg (by norm_num)
  | 1 => simpa [localIndex] using h2 (img.video cy cx)
  | 2 => simpa [localIndex] using h1 (img.video cy cx)
  | (k + 3) => simpa [localIndex] using h1 (img.color cy cx)

theorem pixCode_lt (c b : ℕ) : pixCode c b < 4 := by
  unfold pixCode
  have h0 : (0 : ℤ) ≤ asr (schar c) b % 4 := Int.emod_nonneg _ (by norm_num)
  have h4 : asr (schar c) b % 4 < 4 := Int.emod_lt_of_pos _ (by norm_num)
  omega

/-- Where the pixel loop sends card-local coordinates: the pixel of card
`(cy, cx)`, bitmap row `yy`, column `col` inside the card. -/
theorem raster_at (pal : ℕ → RgbColor) (img : Image) (cy cx yy col : ℕ)
    (hy : yy < 8) (hcol : col < 4) :
    raster pal img (8 * cy + yy) (4 * cx + col) =
      pal (localIndex img cy cx
        (pixCode (img.bitmap cy cx yy) (6 - 2 * col))) := by
  have e1 : (8 * cy + yy) / 8 = cy := by omega
  have e2 : (8 * cy + yy) % 8 = yy := by omega
  have e3 : (4 * cx + col) / 4 = cx := by omega
  have e4 : (4 * cx + col) % 4 = col := by omega
  simp only [raster, rasterIdx, e1, e2, e3, e4]

theorem localIndex_zero (img : Image) (cy cx : ℕ) :
    localIndex img cy cx 0 = img.bg % 16 := rfl

theorem localIndex_one (img : Image) (cy cx : ℕ) :
    localIndex img cy cx 1 = hiNibbleS (img.video cy cx) := rfl

theorem localIndex_two (img : Image) (cy cx : ℕ) :
    localIndex img cy cx 2 = loNibbleS (img.video cy cx) := rfl

theorem localIndex_three (img : Image) (cy cx : ℕ) :
    localIndex img cy cx 3 = loNibbleS (img.color cy cx) := rfl

theorem range_flatMap_length (f : ℕ → List ℕ) (m : ℕ) (h : ∀ i, (f i).length = m) :
    ∀ n, ((List.range n).flatMap f).length = n * m := by
  intro n
  induction n with
  | zero => simp
  | succ k ih =>
      rw [List.range_succ, List.flatMap_append, List.length_append, ih]
      simp [h]
      ring

theorem range_flatMap_getD (f : ℕ → List ℕ) (m : ℕ) (h : ∀ i, (f i).length = m) :
    ∀ n q r, q < n → r < m →
      ((List.range n).flatMap f).getD (q * m + r) 0 = (f q).getD r 0 := by
  intro n
  induction n with
  | zero => intro q r hq hr; exact absurd hq (Nat.not_lt_zero q)
  | succ k ih =>
      intro q r hq hr
      rw [List.range_succ, List.flatMap_append]
      rcases Nat.lt_or_ge q k with hqk | hqk
      · have hlen : q * m + r < ((List.range k).flatMap f).length := by
          rw [range_flatMap_length f m h k]
          have h1 : (q + 1) * m ≤ k * m := Nat.mul_le_mul_right m hqk
          have h2 : (q + 1) * m = q * m + m := by ring
          omega
        rw [List.getD_append _ _ _ _ hlen]
        exact ih q r hqk hr
      · have hq' : q = k := by omega
        rw [hq']
        have hlen : ((List.range k).flatMap f).length ≤ k * m + r := by
          rw [range_flatMap_length f m h k]; omega
        rw [List.getD_append_right _ _ _ _ hlen, range_flatMap_length f m h k]
        simp

theorem row_length (pal : ℕ → RgbColor) (img : Image) (y : ℕ) :
    ((List.range 160).flatMap (fun x => pixelBytes (raster pal img y x))).length = 480 :=
  range_flatMap_length (fun x => pixelBytes (raster pal img y x)) 3 (fun _ => rfl) 160

theorem ppm_length (pal : ℕ → RgbColor) (img : Image) :
    (ppmBytes pal img).length = 96015 := by
  unfold ppmBytes
  rw [List.length_append,
    range_flatMap_length
      (fun y => (List.range 160).flatMap (fun x => pixelBytes (raster pal img y x)))
      480 (fun y => row_length pal img y) 200]
  rfl

/-! ### Claims -/

/-- Claim C1: for every block, the 4-entry local color table resolves as
entry 0 = palette[background & 0xF], entry 1 = palette[(video >> 4) & 0xF],
entry 2 = palette[video & 0xF], entry 3 = palette[colorRAM & 0xF] (all in
terms of the unsigned byte values), and the high nibble of the color-RAM
byte never influences any output pixel: two images equal except for the
high nibbles of their color-RAM bytes yield identical rasters. -/
theorem claim_C1_local_table (pal : ℕ → RgbColor) (img img' : Image) (cy cx : ℕ) :
    localIndex img cy cx 0 = img.bg % 16 ∧
    localIndex img cy cx 1 = img.video cy cx / 16 % 16 ∧
    localIndex img cy cx 2 = img.video cy cx % 16 ∧
    localIndex img cy cx 3 = img.color cy cx % 16 ∧
    (img'.bitmap = img.bitmap → img'.video = img.video → img'.bg = img.bg →
      (∀ a b, img'.color a b % 16 = img.color a b % 16) →
      ∀ y x, raster pal img' y x = raster pal img y x) := by
  refine ⟨localIndex_zero img cy cx, ?_, ?_, ?_, ?_⟩
  · rw [localIndex_one, hiNibbleS_mod]
  · rw [localIndex_two, loNibbleS_mod]
  · rw [localIndex_three, loNibbleS_mod]
  · intro hbm hv hbg hc y x
    have hloc : ∀ a b k, localIndex img' a b k = localIndex img a b k := by
      intro a b k
      match k with
      | 0 => rw [localIndex_zero, localIndex_zero, hbg]
      | 1 => rw [localIndex_one, localIndex_one, hv]
      | 2 => rw [localIndex_two, localIndex_two, hv]
      | (k + 3) =>
          show loNibbleS (img'.color a b) = loNibbleS (img.color a b)
          rw [loNibbleS_mod, loNibbleS_mod, hc]
    simp only [raster, rasterIdx, hbm, hloc]

/-- Witness for claim C1 at a concrete image (the all-fallback decode of
the empty input) and a concrete palette. -/
theorem claim_C1_local_table_witness :
    ((decode []).1.bitmap = (decode []).1.bitmap) ∧
    ((decode []).1.bg = (decode []).1.bg) ∧
    raster (fun i => ⟨i, 0, 0⟩) (decode []).1 0 0 =
      raster (fun i => ⟨i, 0, 0⟩) (decode []).1 0 0 :=
  ⟨rfl, rfl,
    (claim_C1_local_table (fun i => ⟨i, 0, 0⟩) (decode []).1 (decode []).1 0 0).2.2.2.2
      rfl rfl rfl (fun _ _ => rfl) 0 0⟩

/-- Claim C2: for every block, row and bit position b of {0,2,4,6}, the
pixel whose 2-bit code is `(c >> b) & 3` lands at output row
`8*blockY + y` and output column `4*blockX + (6-b)/2`; bit position 6 thus
maps to the leftmost of the block's 4 columns and bit position 0 to the
rightmost. -/
theorem claim_C2_bit_placement (pal : ℕ → RgbColor) (img : Image)
    (blockX blockY y b : ℕ) (hX : blockX < 40) (hY : blockY < 25) (hy : y < 8)
    (hb : b = 0 ∨ b = 2 ∨ b = 4 ∨ b = 6) :
    raster pal img (8 * blockY + y) (4 * blockX + (6 - b) / 2) =
      pal (localIndex img blockY blockX (pixCode (img.bitmap blockY blockX y) b)) := by
  rcases hb with rfl | rfl | rfl | rfl
  · simpa using raster_at pal img blockY blockX y 3 hy (by norm_num)
  · simpa using raster_at pal img blockY blockX y 2 hy (by norm_num)
  · simpa using raster_at pal img blockY blockX y 1 hy (by norm_num)
  · simpa using raster_at pal img blockY blockX y 0 hy (by norm_num)

/-- Witness for claim C2 at block (0,0), row 0, bit position 6 of the
all-fallback image. -/
theorem claim_C2_bit_placement_witness :
    (0 : ℕ) < 40 ∧ (0 : ℕ) < 25 ∧ (0 : ℕ) < 8 ∧
    ((6 : ℕ) = 0 ∨ (6 : ℕ) = 2 ∨ (6 : ℕ) = 4 ∨ (6 : ℕ) = 6) ∧
    raster (fun i => ⟨i, 0, 0⟩) (decode []).1 (8 * 0 + 0) (4 * 0 + (6 - 6) / 2) =
      (fun i : ℕ => (⟨i, 0, 0⟩ : RgbColor))
        (localIndex (decode []).1 0 0 (pixCode ((decode []).1.bitmap 0 0 0) 6)) :=
  ⟨by decide, by decide, by decide, by decide,
    claim_C2_bit_placement (fun i => ⟨i, 0, 0⟩) (decode []).1 0 0 0 6
      (by decide) (by decide) (by decide) (by decide)⟩

/-- Counterexample to claim C3: on an image whose bitmap bytes are all
0xE4 (bit pattern 11 10 01 00, MSB pair first), with an injective palette,
the leftmost column of block (0,0) does NOT receive the background color
(local entry 0) as the claim states; it receives local entry 3, the
color-RAM color. -/
theorem claim_C3_counterexample :
    raster (fun i => ⟨i, 0, 0⟩)
        ⟨fun _ _ _ => 0xE4, fun _ _ => 0x12, fun _ _ => 0x03, 0⟩ 0 0 ≠
      (fun i : ℕ => (⟨i, 0, 0⟩ : RgbColor))
        ((⟨fun _ _ _ => 0xE4, fun _ _ => 0x12, fun _ _ => 0x03, 0⟩ : Image).bg % 16) ∧
    raster (fun i => ⟨i, 0, 0⟩)
        ⟨fun _ _ _ => 0xE4, fun _ _ => 0x12, fun _ _ => 0x03, 0⟩ 0 0 =
      (fun i : ℕ => (⟨i, 0, 0⟩ : RgbColor))
        (localIndex ⟨fun _ _ _ => 0xE4, fun _ _ => 0x12, fun _ _ => 0x03, 0⟩ 0 0 3) := by
  constructor
  · decide
  · decide

/-- Claim C3 as amended: for any block whose bitmap byte (for a given row)
is 0xE4 — bit pattern 11 10 01 00, MSB pair first — the four output
columns of that block, read left to right, receive the colors color-RAM,
video-low-nibble, video-high-nibble, background: the exact REVERSE of the
order the original claim states. -/
theorem claim_C3_amended (pal : ℕ → RgbColor) (img : Image) (blockY blockX y : ℕ)
    (hy : y < 8) (hbm : img.bitmap blockY blockX y = 0xE4) :
    raster pal img (8 * blockY + y) (4 * blockX + 0) = pal (img.color blockY blockX % 16) ∧
    raster pal img (8 * blockY + y) (4 * blockX + 1) = pal (img.video blockY blockX % 16) ∧
    raster pal img (8 * blockY + y) (4 * blockX + 2) = pal (img.video blockY blockX / 16 % 16) ∧
    raster pal img (8 * blockY + y) (4 * blockX + 3) = pal (img.bg % 16) := by
  refine ⟨?_, ?_, ?_, ?_⟩
  · rw [raster_at pal img blockY blockX y 0 hy (by norm_num), hbm,
      show (6 - 2 * 0 : ℕ) = 6 from rfl, show pixCode 0xE4 6 = 3 from by decide,
      localIndex_three, loNibbleS_mod]
  · rw [raster_at pal img blockY blockX y 1 hy (by norm_num), hbm,
      show (6 - 2 * 1 : ℕ) = 4 from rfl, show pixCode 0xE4 4 = 2 from by decide,
      localIndex_two, loNibbleS_mod]
  · rw [raster_at pal img blockY blockX y 2 hy (by norm_num), hbm,
      show (6 - 2 * 2 : ℕ) = 2 from rfl, show pixCode 0xE4 2 = 1 from by decide,
      localIndex_one, hiNibbleS_mod]
  · rw [raster_at pal img blockY blockX y 3 hy (by norm_num), hbm,
      show (6 - 2 * 3 : ℕ) = 0 from rfl, show pixCode 0xE4 0 = 0 from by decide,
      localIndex_zero]

/-- Witness for the amended claim C3 at a concrete image and palette. -/
theorem claim_C3_amended_witness :
    (0 : ℕ) < 8 ∧
    ((⟨fun _ _ _ => 0xE4, fun _ _ => 0x12, fun _ _ => 0x03, 0⟩ : Image).bitmap 0 0 0 = 0xE4) ∧
    raster (fun i => ⟨i, 0, 0⟩)
        ⟨fun _ _ _ => 0xE4, fun _ _ => 0x12, fun _ _ => 0x03, 0⟩ (8 * 0 + 0) (4 * 0 + 0) =
      (fun i : ℕ => (⟨i, 0, 0⟩ : RgbColor))
        ((⟨fun _ _ _ => 0xE4, fun _ _ => 0x12, fun _ _ => 0x03, 0⟩ : Image).color 0 0 % 16) :=
  ⟨by decide, rfl,
    (claim_C3_amended (fun i => ⟨i, 0, 0⟩)
      ⟨fun _ _ _ => 0xE4, fun _ _ => 0x12, fun _ _ => 0x03, 0⟩ 0 0 0 (by decide) rfl).1⟩

/-- Counterexample to claim C5: with the 3-byte input [0, 0, 66] the
2-byte load-address read succeeds and the 8000-byte bitmap read fails, so
by the claim every bitmap byte should keep its fallback value 0x1b; but
`fread` stores the one byte it could obtain, so `bitmap[0][0][0]` holds 66
(and exactly one warning is still emitted). -/
theorem claim_C5_counterexample :
    (decode [0, 0, 66]).1.bitmap 0 0 0 = 66 ∧
    (decode [0, 0, 66]).1.bitmap 0 0 0 ≠ 0x1b ∧
    (decode [0, 0, 66]).2 = 1 := by
  refine ⟨?_, ?_, ?_⟩ <;> decide

/-- Claim C5 as amended: if the input is shorter than the 10003 required
bytes, decoding does not fail; every byte whose offset lies beyond the end
of the input keeps its pre-initialized fallback value (bitmap 0x1b, video
0x25, color 0x06, background 0x00) — in particular all bytes of the reads
that are skipped after the first failure — and exactly one "output may be
corrupt" warning is emitted (none when the input is complete).  A byte the
failing read could still obtain from the input is stored, not reset. -/
theorem claim_C5_amended (input : List ℕ) :
    ((decode input).2 = if input.length < 10003 then 1 else 0) ∧
    (∀ cy cx y, input.length ≤ 2 + (8 * (40 * cy + cx) + y) →
      (decode input).1.bitmap cy cx y = 0x1b) ∧
    (∀ cy cx, input.length ≤ 8002 + (40 * cy + cx) →
      (decode input).1.video cy cx = 0x25) ∧
    (∀ cy cx, input.length ≤ 9002 + (40 * cy + cx) →
      (decode input).1.color cy cx = 0x06) ∧
    (input.length ≤ 10002 → (decode input).1.bg = 0) := by
  refine ⟨rfl, ?_, ?_, ?_, ?_⟩
  · intro cy cx y h
    show (if _ ∧ _ then _ else _) = 0x1b
    rw [if_neg]
    omega
  · intro cy cx h
    show (if _ ∧ _ then _ else _) = 0x25
    rw [if_neg]
    omega
  · intro cy cx h
    show (if _ ∧ _ then _ else _) = 0x06
    rw [if_neg]
    omega
  · intro h
    show (if _ then _ else _) = 0
    rw [if_neg]
    omega

/-- Witness for the amended claim C5 on the empty input: everything is at
fallback and one warning is emitted. -/
theorem claim_C5_amended_witness :
    ((decode ([] : List ℕ)).2 = if ([] : List ℕ).length < 10003 then 1 else 0) ∧
    (([] : List ℕ).length ≤ 2 + (8 * (40 * 0 + 0) + 0)) ∧
    (decode ([] : List ℕ)).1.bitmap 0 0 0 = 0x1b ∧
    (([] : List ℕ).length ≤ 10002) ∧
    (decode ([] : List ℕ)).1.bg = 0 :=
  ⟨(claim_C5_amended []).1, by decide,
    (claim_C5_amended []).2.1 0 0 0 (by decide), by decide,
    (claim_C5_amended []).2.2.2.2 (by decide)⟩

theorem ppm_getD (pal : ℕ → RgbColor) (img : Image) (y x k : ℕ)
    (hy : y < 200) (hx : x < 160) (hk : k < 3) :
    (ppmBytes pal img).getD (15 + 3 * (160 * y + x) + k) 0 =
      (pixelBytes (raster pal img y x)).getD k 0 := by
  unfold ppmBytes
  have h15 : headerBytes.length ≤ 15 + 3 * (160 * y + x) + k := by
    rw [show headerBytes.length = 15 from rfl]; omega
  rw [List.getD_append_right _ _ _ _ h15, show headerBytes.length = 15 from rfl,
    show 15 + 3 * (160 * y + x) + k - 15 = y * 480 + (x * 3 + k) from by omega,
    range_flatMap_getD
      (fun j => (List.range 160).flatMap fun x => pixelBytes (raster pal img j x)) 480
      (fun j => row_length pal img j) 200 y (x * 3 + k) hy (by omega),
    range_flatMap_getD (fun j => pixelBytes (raster pal img y j)) 3
      (fun j => rfl) 160 x k hx hk]

/-- Claim C4: for every input, the emitted stream is exactly the 15 header
bytes of `P6\n160 200\n255\n` followed by 96000 payload bytes (96015 in
total), one pixel per 3 consecutive bytes in order r, g, b, rows top to
bottom and pixels left to right: the byte at offset `15 + 3*(160*y + x)`
(+1, +2) is the r (g, b) component of the pixel at row y, column x. -/
theorem claim_C4_output_stream (pal : ℕ → RgbColor) (input : List ℕ) :
    (ppmBytes pal (decode input).1).length = 96015 ∧
    (ppmBytes pal (decode input).1).take 15 = headerBytes ∧
    ∀ (y : Fin 200) (x : Fin 160),
      (ppmBytes pal (decode input).1).getD (15 + 3 * (160 * (y : ℕ) + (x : ℕ))) 0 =
        ((raster pal (decode input).1 y x).r % 256).toNat ∧
      (ppmBytes pal (decode input).1).getD (15 + 3 * (160 * (y : ℕ) + (x : ℕ)) + 1) 0 =
        ((raster pal (decode input).1 y x).g % 256).toNat ∧
      (ppmBytes pal (decode input).1).getD (15 + 3 * (160 * (y : ℕ) + (x : ℕ)) + 2) 0 =
        ((raster pal (decode input).1 y x).b % 256).toNat := by
  refine ⟨ppm_length _ _, ?_, ?_⟩
  · show (headerBytes ++ _).take 15 = headerBytes
    rw [show (15 : ℕ) = headerBytes.length from rfl]
    exact List.take_left _ _
  · intro y x
    refine ⟨?_, ?_, ?_⟩
    · simpa using ppm_getD pal (decode input).1 y x 0 y.isLt x.isLt (by norm_num)
    · simpa using ppm_getD pal (decode input).1 y x 1 y.isLt x.isLt (by norm_num)
    · simpa using ppm_getD pal (decode input).1 y x 2 y.isLt x.isLt (by norm_num)

/-- Claim C6: with global saturation 0, whatever the values of cos and
sin, each of the 16 palette entries has chroma terms u and v exactly zero,
and its stored r, g, b components are all equal (pure grey). -/
theorem claim_C6_grey_at_zero_sat (trig : ℕ → ℚ × ℚ) (i : Fin 16) :
    (c64_to_yuv (c64_colors.getD (i : ℕ) ⟨0, 0, 0⟩) 0 USCALE VSCALE
        (trig (c64_colors.getD (i : ℕ) ⟨0, 0, 0⟩).angle).1
        (trig (c64_colors.getD (i : ℕ) ⟨0, 0, 0⟩).angle).2).u = 0 ∧
    (c64_to_yuv (c64_colors.getD (i : ℕ) ⟨0, 0, 0⟩) 0 USCALE VSCALE
        (trig (c64_colors.getD (i : ℕ) ⟨0, 0, 0⟩).angle).1
        (trig (c64_colors.getD (i : ℕ) ⟨0, 0, 0⟩).angle).2).v = 0 ∧
    (init_colors 0 trig (i : ℕ)).r = (init_colors 0 trig (i : ℕ)).g ∧
    (init_colors 0 trig (i : ℕ)).g = (init_colors 0 trig (i : ℕ)).b := by
  refine ⟨?_, ?_, ?_, ?_⟩ <;>
    simp [c64_to_yuv, init_colors, c64_to_rgb, yuv_to_rgb]

theorem ratTrunc_byte_bounds (x : ℚ) :
    0 ≤ ratTrunc (255 * BOUND x + 0.5) ∧ ratTrunc (255 * BOUND x + 0.5) ≤ 255 := by
  have hb0 : 0 ≤ BOUND x := by
    unfold BOUND; split_ifs <;> push_neg at * <;> linarith
  have hb1 : BOUND x ≤ 1 := by
    unfold BOUND; split_ifs <;> push_neg at * <;> linarith
  have hq0 : (0 : ℚ) ≤ 255 * BOUND x + 0.5 := by linarith
  unfold ratTrunc
  rw [if_neg (not_lt.mpr hq0)]
  constructor
  · exact Int.le_floor.mpr (by push_cast; linarith)
  · have hlt : ⌊(255 * BOUND x + 0.5 : ℚ)⌋ < 256 := Int.floor_lt.mpr (by push_cast; linarith)
    omega

/-- Claim C7: each linear r, g, b value is first clamped to [0,1] by
`BOUND` and then converted to an `int` by computing `255*value + 0.5` and
truncating toward zero; consequently every stored palette component lies
in [0, 255]. -/
theorem claim_C7_clamp_and_round (yuv : YuvColor) :
    (yuv_to_rgb yuv).r = ratTrunc (255 * BOUND (yuv.y + 1.13983 * yuv.v) + 0.5) ∧
    (yuv_to_rgb yuv).g =
      ratTrunc (255 * BOUND (yuv.y + (-0.39465) * yuv.u + (-0.58060) * yuv.v) + 0.5) ∧
    (yuv_to_rgb yuv).b = ratTrunc (255 * BOUND (yuv.y + 2.03211 * yuv.u) + 0.5) ∧
    (0 ≤ (yuv_to_rgb yuv).r ∧ (yuv_to_rgb yuv).r ≤ 255) ∧
    (0 ≤ (yuv_to_rgb yuv).g ∧ (yuv_to_rgb yuv).g ≤ 255) ∧
    (0 ≤ (yuv_to_rgb yuv).b ∧ (yuv_to_rgb yuv).b ≤ 255) :=
  ⟨rfl, rfl, rfl,
    ratTrunc_byte_bounds (yuv.y + 1.13983 * yuv.v),
    ratTrunc_byte_bounds (yuv.y + (-0.39465) * yuv.u + (-0.58060) * yuv.v),
    ratTrunc_byte_bounds (yuv.y + 2.03211 * yuv.u)⟩

/-- Claim C8: the pixel-reconstruction transform is total over every
Image, with arbitrary (even out-of-range) byte values: every local color
table index lies below 16, every 2-bit pixel code lies below 4, and every
raster pixel is a palette lookup at an index below 16. -/
theorem claim_C8_totality :
    (∀ (img : Image) (cy cx k : ℕ), localIndex img cy cx k < 16) ∧
    (∀ (c b : ℕ), pixCode c b < 4) ∧
    (∀ (pal : ℕ → RgbColor) (img : Image) (y x : ℕ),
      raster pal img y x = pal (rasterIdx img y x) ∧ rasterIdx img y x < 16) :=
  ⟨fun img cy cx k => localIndex_lt img cy cx k,
   fun c b => pixCode_lt c b,
   fun pal img y x =>
     ⟨rfl, localIndex_lt img (y / 8) (x / 4)
       (pixCode (img.bitmap (y / 8) (x / 4) (y % 8)) (6 - 2 * (x % 4)))⟩⟩

/-- Claim C9: if the saturation argument parses to a negative value, the
program reports the usage error, exits with status 1, and neither reads
the input nor produces any output (the result is independent of the input
and the output stream is empty). -/
theorem claim_C9_negative_saturation (sat : ℚ) (trig : ℕ → ℚ × ℚ) (input : List ℕ)
    (h : sat < 0) :
    (c64koala2ppm sat trig input).exitCode = 1 ∧
    (c64koala2ppm sat trig input).out = [] ∧
    (c64koala2ppm sat trig input).argErr = true ∧
    c64koala2ppm sat trig input = c64koala2ppm sat trig [] := by
  simp [c64koala2ppm, if_pos h]

/-- Witness for claim C9 at saturation -1. -/
theorem claim_C9_negative_saturation_witness :
    ((-1 : ℚ) < 0) ∧
    (c64koala2ppm (-1) (fun _ => (1, 0)) [7]).exitCode = 1 ∧
    (c64koala2ppm (-1) (fun _ => (1, 0)) [7]).out = [] ∧
    (c64koala2ppm (-1) (fun _ => (1, 0)) [7]).argErr = true ∧
    c64koala2ppm (-1) (fun _ => (1, 0)) [7] = c64koala2ppm (-1) (fun _ => (1, 0)) [] :=
  ⟨by norm_num, claim_C9_negative_saturation (-1) (fun _ => (1, 0)) [7] (by norm_num)⟩

/-- Claim C10: for every input shorter than the required 10003 bytes (and
a valid saturation), the program still exits with status 0 and still
writes the complete 96015-byte pixmap: truncation triggers the warning and
changes pixel values only, never the output size or the exit status. -/
theorem claim_C10_short_input_full_output (sat : ℚ) (trig : ℕ → ℚ × ℚ)
    (input : List ℕ) (hsat : 0 ≤ sat) (hshort : input.length < 10003) :
    (c64koala2ppm sat trig input).exitCode = 0 ∧
    (c64koala2ppm sat trig input).out.length = 96015 ∧
    (c64koala2ppm sat trig input).warnings = 1 := by
  unfold c64koala2ppm
  rw [if_neg (not_lt.mpr hsat)]
  refine ⟨rfl, ppm_length _ _, ?_⟩
  show (decode input).2 = 1
  show (if input.length < 10003 then 1 else 0) = 1
  rw [if_pos hshort]

/-- Witness for claim C10 on the empty input at saturation 1. -/
theorem claim_C10_short_input_full_output_witness :
    ((0 : ℚ) ≤ 1) ∧ (([] : List ℕ).length < 10003) ∧
    (c64koala2ppm 1 (fun _ => (1, 0)) []).exitCode = 0 ∧
    (c64koala2ppm 1 (fun _ => (1, 0)) []).out.length = 96015 ∧
    (c64koala2ppm 1 (fun _ => (1, 0)) []).warnings = 1 :=
  ⟨by norm_num, by decide,
    claim_C10_short_input_full_output 1 (fun _ => (1, 0)) [] (by norm_num) (by decide)⟩
